import Mathlib

/-!
# Verification of `BinarySearchTree.ts`

Shallow embedding of
`src/main/algorithms/datastructures/binarysearchtree/BinarySearchTree.ts`.

A `BinarySearchTreeNode<T>` with its `left`/`right` references (where both
`null` and `undefined` mark an absent child) is embedded as the inductive
`Tree`; the class state (`_nodeCount : number`, `_root`) is the structure
`BinarySearchTree`.  The payload type `T` is any type with JavaScript-style
`<`, `>`, `===` comparison, embedded as a `LinearOrder`.  Mutating methods
are embedded as functions returning the method result paired with the
updated object state.
-/

namespace BST

/-- `BinarySearchTreeNode<T> | null | undefined`: `nil` is an absent node
(`null` or `undefined`), `node left data right` a node record. -/
inductive Tree (α : Type) where
  | nil : Tree α
  | node (left : Tree α) (data : α) (right : Tree α) : Tree α
  deriving DecidableEq, Repr

variable {α : Type} [LinearOrder α]

/-- The `BinarySearchTree<T>` class state: `_nodeCount` (a JS number used as
an integer counter) and `_root`. -/
structure BinarySearchTree (α : Type) where
  _nodeCount : Int
  _root : Tree α
  deriving DecidableEq, Repr

/-- The freshly constructed tree: `_nodeCount = 0`, `_root = null`. -/
def newTree : BinarySearchTree α := { _nodeCount := 0, _root := Tree.nil }

/-- `size()`: returns `this._nodeCount`. -/
def size (t : BinarySearchTree α) : Int := t._nodeCount

/-- `isEmpty()`: `this.size() == 0`. -/
def isEmpty (t : BinarySearchTree α) : Bool := size t == 0

/-- `recursiveContains(node, elem)`: three-way comparison walk. -/
def recursiveContains : Tree α → α → Bool
  | Tree.nil, _ => false
  | Tree.node l d r, elem =>
    if elem < d then recursiveContains l elem
    else if elem > d then recursiveContains r elem
    else true

/-- `contains(elem)`: `recursiveContains(this._root, elem)`. -/
def contains (t : BinarySearchTree α) (elem : α) : Bool :=
  recursiveContains t._root elem

/-- `recursiveAdd(node, elem)`.  In the source's base case
`if (node == null) { const node = { left: null, right: null, data: elem } }`
the `const node` shadows the parameter inside the block, so the freshly
built record is discarded and the trailing `return node` returns the
parameter, i.e. `null`.  The embedding reproduces that: the `nil` case
returns `nil`.  In the non-null case the source branches on
`elem === node.data` (descend left) versus anything else (descend right). -/
def recursiveAdd : Tree α → α → Tree α
  | Tree.nil, _ => Tree.nil
  | Tree.node l d r, elem =>
    if elem = d then Tree.node (recursiveAdd l elem) d r
    else Tree.node l d (recursiveAdd r elem)

/-- `add(elem)`: if `contains(elem)` return `false`; otherwise reassign
`_root`, increment `_nodeCount`, return `true`. -/
def add (t : BinarySearchTree α) (elem : α) : Bool × BinarySearchTree α :=
  if contains t elem then (false, t)
  else
    (true, { _nodeCount := t._nodeCount + 1,
             _root := recursiveAdd t._root elem })

/-- `findMin(node)` run on the node `(l, d, r)`: the `while (node.left != null)`
loop walking the left spine. -/
def findMinData : Tree α → α → Tree α → α
  | Tree.nil, d, _ => d
  | Tree.node ll ld lr, _, _ => findMinData ll ld lr

/-- `recursiveRemove(node, elem)`: three-way search; at the found node, splice
the right child if `left == null`, else the left child if `right == null`,
else copy the minimum of the right subtree into the node and remove that
minimum from the right subtree. -/
def recursiveRemove : Tree α → α → Tree α
  | Tree.nil, _ => Tree.nil
  | Tree.node l d r, elem =>
    if elem < d then Tree.node (recursiveRemove l elem) d r
    else if elem > d then Tree.node l d (recursiveRemove r elem)
    else
      match l with
      | Tree.nil => r
      | Tree.node ll ld lr =>
        match r with
        | Tree.nil => Tree.node ll ld lr
        | Tree.node rl rd rr =>
          let tmp := findMinData rl rd rr
          Tree.node (Tree.node ll ld lr) tmp
            (recursiveRemove (Tree.node rl rd rr) tmp)

/-- `remove(elem)`: if `contains(elem)`, reassign `_root` from
`recursiveRemove`, decrement `_nodeCount`, return `true`; else return
`false` without mutation. -/
def remove (t : BinarySearchTree α) (elem : α) : Bool × BinarySearchTree α :=
  if contains t elem then
    (true, { _nodeCount := t._nodeCount - 1,
             _root := recursiveRemove t._root elem })
  else (false, t)

/-- `recursiveHeight(node)`: `0` on `null`, else `max(left, right) + 1`. -/
def recursiveHeight : Tree α → Nat
  | Tree.nil => 0
  | Tree.node l _ r => max (recursiveHeight l) (recursiveHeight r) + 1

/-- `height()`: `recursiveHeight(this._root)`. -/
def height (t : BinarySearchTree α) : Nat := recursiveHeight t._root

/-! ## Specification-side notions (membership, node count, BST invariant) -/

/-- Boolean membership of a value in the node structure (reachability of a
node holding `x` from the given subtree root). -/
def mem (x : α) : Tree α → Bool
  | Tree.nil => false
  | Tree.node l d r => x = d || mem x l || mem x r

/-- Number of `Node` records reachable from the given subtree root. -/
def countNodes : Tree α → Nat
  | Tree.nil => 0
  | Tree.node l _ r => countNodes l + countNodes r + 1

/-- Every value in the subtree satisfies `p`. -/
def allTree (p : α → Bool) : Tree α → Bool
  | Tree.nil => true
  | Tree.node l d r => p d && allTree p l && allTree p r

/-- The strict binary-search-tree invariant: every value in a left subtree
is less than the node's value, every value in a right subtree greater. -/
def isBSTb : Tree α → Bool
  | Tree.nil => true
  | Tree.node l d r =>
    allTree (fun x => x < d) l && allTree (fun x => d < x) r
      && isBSTb l && isBSTb r

/-- An operation on the tree: one public mutating call. -/
inductive Op (α : Type) where
  | addOp (v : α) : Op α
  | removeOp (v : α) : Op α
  deriving DecidableEq, Repr

/-- Run one public call, keeping only the updated state. -/
def applyOp (t : BinarySearchTree α) : Op α → BinarySearchTree α
  | Op.addOp v => (add t v).2
  | Op.removeOp v => (remove t v).2

/-- Run a sequence of public calls from a given state. -/
def applyOps (t : BinarySearchTree α) : List (Op α) → BinarySearchTree α
  | [] => t
  | o :: os => applyOps (applyOp t o) os

/-- Whether an operation is an `add` call. -/
def isAddOp : Op α → Bool
  | Op.addOp _ => true
  | Op.removeOp _ => false

/-- Build a tree by `add`-ing each value of a list in order (states only). -/
def addAll (t : BinarySearchTree α) : List α → BinarySearchTree α
  | [] => t
  | v :: vs => addAll (add t v).2 vs

/-- Remove each value of a list in order (states only). -/
def removeAll (t : BinarySearchTree α) : List α → BinarySearchTree α
  | [] => t
  | v :: vs => removeAll (remove t v).2 vs

end BST

/-! ## Helper lemmas -/

namespace BST

variable {α : Type} [LinearOrder α]

theorem contains_root_nil (t : BinarySearchTree α) (h : t._root = Tree.nil)
    (v : α) : contains t v = false := by
  rw [contains, h, recursiveContains]

theorem applyOps_root_nil :
    ∀ (ops : List (Op α)) (t : BinarySearchTree α), t._root = Tree.nil →
      (applyOps t ops)._root = Tree.nil
        ∧ size (applyOps t ops) = size t + ((ops.filter isAddOp).length : Int) := by
  intro ops
  induction ops with
  | nil =>
    intro t ht
    simp [applyOps, ht]
  | cons o os ih =>
    intro t ht
    cases o with
    | addOp v =>
      have hc := contains_root_nil t ht v
      have hstate : applyOp t (Op.addOp v)
          = { _nodeCount := t._nodeCount + 1, _root := Tree.nil } := by
        simp [applyOp, add, hc, ht, recursiveAdd]
      rw [applyOps, hstate]
      obtain ⟨h1, h2⟩ := ih { _nodeCount := t._nodeCount + 1, _root := Tree.nil } rfl
      refine ⟨h1, ?_⟩
      rw [h2]
      simp only [size, List.filter, isAddOp, List.length_cons]
      push_cast
      ring
    | removeOp v =>
      have hc := contains_root_nil t ht v
      have hstate : applyOp t (Op.removeOp v) = t := by
        simp [applyOp, remove, hc]
      rw [applyOps, hstate]
      obtain ⟨h1, h2⟩ := ih t ht
      refine ⟨h1, ?_⟩
      rw [h2]
      simp [List.filter, isAddOp]

end BST

/-! ## Claim theorems -/

namespace BST

/-- C10: starting from a newly constructed `BinarySearchTree`, after every
sequence of `add` and `remove` calls the root remains null (`recursiveAdd`'s
base case builds the node in a shadowed local constant and returns the null
parameter), so `contains` is false for every value, `add` returns true for
every value, `remove` returns false for every value, and `size()` equals the
number of `add` calls made so far. -/
theorem root_always_nil {α : Type} [LinearOrder α] (ops : List (Op α)) :
    (applyOps (newTree : BinarySearchTree α) ops)._root = Tree.nil
    ∧ (∀ v, contains (applyOps (newTree : BinarySearchTree α) ops) v = false)
    ∧ (∀ v, (add (applyOps (newTree : BinarySearchTree α) ops) v).1 = true)
    ∧ (∀ v, (remove (applyOps (newTree : BinarySearchTree α) ops) v).1 = false)
    ∧ size (applyOps (newTree : BinarySearchTree α) ops)
        = ((ops.filter isAddOp).length : Int) := by
  obtain ⟨h1, h2⟩ := applyOps_root_nil ops newTree rfl
  refine ⟨h1, fun v => contains_root_nil _ h1 v, ?_, ?_, ?_⟩
  · intro v
    simp [add, contains_root_nil _ h1 v]
  · intro v
    simp [remove, contains_root_nil _ h1 v]
  · rw [h2]
    simp [size, newTree]

/-- C5: for every tree state and every value `v` with `contains(v)` false,
`remove(v)` returns false and leaves the state (nodes, links, `_nodeCount`)
unchanged. -/
theorem remove_absent_no_mutation {α : Type} [LinearOrder α]
    (t : BinarySearchTree α) (v : α) (h : contains t v = false) :
    remove t v = (false, t) := by
  simp [remove, h]

theorem remove_absent_no_mutation_w :
    contains (newTree : BinarySearchTree Int) 3 = false
    ∧ remove (newTree : BinarySearchTree Int) 3 = (false, newTree) :=
  ⟨by decide, remove_absent_no_mutation newTree 3 (by decide)⟩

/-- C6: for every tree state and every value `v` with `contains(v)` true,
`add(v)` returns false and leaves the state unchanged, including `size()`. -/
theorem add_present_no_mutation {α : Type} [LinearOrder α]
    (t : BinarySearchTree α) (v : α) (h : contains t v = true) :
    add t v = (false, t) := by
  simp [add, h]

theorem add_present_no_mutation_w :
    contains ({ _nodeCount := 1,
                _root := Tree.node Tree.nil (5 : Int) Tree.nil }
              : BinarySearchTree Int) 5 = true
    ∧ add ({ _nodeCount := 1,
             _root := Tree.node Tree.nil (5 : Int) Tree.nil }
           : BinarySearchTree Int) 5
        = (false, { _nodeCount := 1,
                    _root := Tree.node Tree.nil (5 : Int) Tree.nil }) :=
  ⟨by decide,
   add_present_no_mutation
     { _nodeCount := 1, _root := Tree.node Tree.nil (5 : Int) Tree.nil } 5
     (by decide)⟩

end BST

namespace BST

variable {α : Type} [LinearOrder α]

theorem mem_node_iff (x : α) (l : Tree α) (d : α) (r : Tree α) :
    mem x (Tree.node l d r) = true ↔ x = d ∨ mem x l = true ∨ mem x r = true := by
  simp [mem, or_assoc]

theorem mem_nil_false (x : α) : ¬ mem x Tree.nil = true := by
  simp [mem]

theorem allTree_eq_true_iff (p : α → Bool) :
    ∀ t : Tree α, allTree p t = true ↔ ∀ x, mem x t = true → p x = true := by
  intro t
  induction t with
  | nil => simp [allTree, mem]
  | node l d r ihl ihr =>
    simp only [allTree, mem, Bool.and_eq_true, Bool.or_eq_true,
      decide_eq_true_eq, ihl, ihr]
    constructor
    · rintro ⟨⟨hd, hl⟩, hr⟩ x hx
      rcases hx with (rfl | hx) | hx
      · exact hd
      · exact hl x hx
      · exact hr x hx
    · intro h
      exact ⟨⟨h d (Or.inl (Or.inl rfl)),
        fun x hx => h x (Or.inl (Or.inr hx))⟩,
        fun x hx => h x (Or.inr hx)⟩

theorem isBSTb_node_iff (l : Tree α) (d : α) (r : Tree α) :
    isBSTb (Tree.node l d r) = true ↔
      (∀ x, mem x l = true → x < d) ∧ (∀ x, mem x r = true → d < x)
        ∧ isBSTb l = true ∧ isBSTb r = true := by
  rw [isBSTb]
  simp only [Bool.and_eq_true, allTree_eq_true_iff, decide_eq_true_eq]
  tauto

theorem findMinData_mem :
    ∀ (l : Tree α) (d : α) (r : Tree α),
      mem (findMinData l d r) (Tree.node l d r) = true := by
  intro l
  induction l with
  | nil =>
    intro d r
    rw [findMinData]
    exact (mem_node_iff _ _ _ _).mpr (Or.inl rfl)
  | node ll ld lr ihl _ =>
    intro d r
    rw [findMinData]
    exact (mem_node_iff _ _ _ _).mpr (Or.inr (Or.inl (ihl ld lr)))

theorem findMinData_le :
    ∀ (l : Tree α) (d : α) (r : Tree α), isBSTb (Tree.node l d r) = true →
      ∀ x, mem x (Tree.node l d r) = true → findMinData l d r ≤ x := by
  intro l
  induction l with
  | nil =>
    intro d r hbst x hx
    rw [findMinData]
    obtain ⟨_, Hr, _, _⟩ := (isBSTb_node_iff _ _ _).mp hbst
    rcases (mem_node_iff _ _ _ _).mp hx with rfl | hx | hx
    · exact le_refl _
    · exact absurd hx (mem_nil_false x)
    · exact le_of_lt (Hr x hx)
  | node ll ld lr ihl _ =>
    intro d r hbst x hx
    rw [findMinData]
    obtain ⟨Hl, Hr, hbl, hbr⟩ := (isBSTb_node_iff _ _ _).mp hbst
    have hminmem : mem (findMinData ll ld lr) (Tree.node ll ld lr) = true :=
      findMinData_mem ll ld lr
    have hmind : findMinData ll ld lr < d := Hl _ hminmem
    rcases (mem_node_iff _ _ _ _).mp hx with rfl | hx | hx
    · exact le_of_lt hmind
    · exact ihl ld lr hbl x hx
    · exact le_of_lt (lt_trans hmind (Hr x hx))

theorem recursiveRemove_lt (l : Tree α) (d : α) (r : Tree α) (v : α)
    (h1 : v < d) :
    recursiveRemove (Tree.node l d r) v = Tree.node (recursiveRemove l v) d r := by
  cases l <;> cases r <;> (conv_lhs => rw [recursiveRemove]) <;> rw [if_pos h1]

theorem recursiveRemove_gt (l : Tree α) (d : α) (r : Tree α) (v : α)
    (h1 : ¬ v < d) (h2 : v > d) :
    recursiveRemove (Tree.node l d r) v = Tree.node l d (recursiveRemove r v) := by
  cases l <;> cases r <;> (conv_lhs => rw [recursiveRemove]) <;>
    rw [if_neg h1, if_pos h2]

theorem recursiveRemove_left_nil (d : α) (r : Tree α) (v : α)
    (h1 : ¬ v < d) (h2 : ¬ v > d) :
    recursiveRemove (Tree.node Tree.nil d r) v = r := by
  rw [recursiveRemove, if_neg h1, if_neg h2]

theorem recursiveRemove_right_nil (ll : Tree α) (ld : α) (lr : Tree α)
    (d : α) (v : α) (h1 : ¬ v < d) (h2 : ¬ v > d) :
    recursiveRemove (Tree.node (Tree.node ll ld lr) d Tree.nil) v
      = Tree.node ll ld lr := by
  rw [recursiveRemove, if_neg h1, if_neg h2]

theorem recursiveRemove_two_children (ll : Tree α) (ld : α) (lr : Tree α)
    (d : α) (rl : Tree α) (rd : α) (rr : Tree α) (v : α)
    (h1 : ¬ v < d) (h2 : ¬ v > d) :
    recursiveRemove (Tree.node (Tree.node ll ld lr) d (Tree.node rl rd rr)) v
      = Tree.node (Tree.node ll ld lr) (findMinData rl rd rr)
          (recursiveRemove (Tree.node rl rd rr) (findMinData rl rd rr)) := by
  rw [recursiveRemove, if_neg h1, if_neg h2]

theorem mem_recursiveRemove :
    ∀ t : Tree α, isBSTb t = true →
      ∀ v x, (mem x (recursiveRemove t v) = true ↔ mem x t = true ∧ x ≠ v) := by
  intro t
  induction t with
  | nil =>
    intro _ v x
    simp [recursiveRemove, mem]
  | node l d r ihl ihr =>
    intro hbst v x
    obtain ⟨Hl, Hr, hbl, hbr⟩ := (isBSTb_node_iff l d r).mp hbst
    by_cases h1 : v < d
    · rw [recursiveRemove_lt l d r v h1]
      have ihL := ihl hbl v x
      constructor
      · intro hmem
        rcases (mem_node_iff _ _ _ _).mp hmem with rfl | hx | hx
        · exact ⟨(mem_node_iff _ _ _ _).mpr (Or.inl rfl), (ne_of_lt h1).symm⟩
        · obtain ⟨hxl, hxv⟩ := ihL.mp hx
          exact ⟨(mem_node_iff _ _ _ _).mpr (Or.inr (Or.inl hxl)), hxv⟩
        · exact ⟨(mem_node_iff _ _ _ _).mpr (Or.inr (Or.inr hx)),
            ne_of_gt (lt_trans h1 (Hr x hx))⟩
      · rintro ⟨hmem, hne⟩
        rcases (mem_node_iff _ _ _ _).mp hmem with rfl | hx | hx
        · exact (mem_node_iff _ _ _ _).mpr (Or.inl rfl)
        · exact (mem_node_iff _ _ _ _).mpr (Or.inr (Or.inl (ihL.mpr ⟨hx, hne⟩)))
        · exact (mem_node_iff _ _ _ _).mpr (Or.inr (Or.inr hx))
    · by_cases h2 : v > d
      · rw [recursiveRemove_gt l d r v h1 h2]
        have ihR := ihr hbr v x
        constructor
        · intro hmem
          rcases (mem_node_iff _ _ _ _).mp hmem with rfl | hx | hx
          · exact ⟨(mem_node_iff _ _ _ _).mpr (Or.inl rfl), ne_of_lt h2⟩
          · exact ⟨(mem_node_iff _ _ _ _).mpr (Or.inr (Or.inl hx)),
              ne_of_lt (lt_trans (Hl x hx) h2)⟩
          · obtain ⟨hxr, hxv⟩ := ihR.mp hx
            exact ⟨(mem_node_iff _ _ _ _).mpr (Or.inr (Or.inr hxr)), hxv⟩
        · rintro ⟨hmem, hne⟩
          rcases (mem_node_iff _ _ _ _).mp hmem with rfl | hx | hx
          · exact (mem_node_iff _ _ _ _).mpr (Or.inl rfl)
          · exact (mem_node_iff _ _ _ _).mpr (Or.inr (Or.inl hx))
          · exact (mem_node_iff _ _ _ _).mpr (Or.inr (Or.inr (ihR.mpr ⟨hx, hne⟩)))
      · have hvd : v = d := le_antisymm (not_lt.mp h2) (not_lt.mp h1)
        subst hvd
        cases l with
        | nil =>
          rw [recursiveRemove_left_nil v r v h1 h2]
          constructor
          · intro hx
            exact ⟨(mem_node_iff _ _ _ _).mpr (Or.inr (Or.inr hx)),
              ne_of_gt (Hr x hx)⟩
          · rintro ⟨hmem, hne⟩
            rcases (mem_node_iff _ _ _ _).mp hmem with rfl | hx | hx
            · exact absurd rfl hne
            · exact absurd hx (mem_nil_false x)
            · exact hx
        | node ll ld lr =>
          cases r with
          | nil =>
            rw [recursiveRemove_right_nil ll ld lr v v h1 h2]
            constructor
            · intro hx
              exact ⟨(mem_node_iff _ _ _ _).mpr (Or.inr (Or.inl hx)),
                ne_of_lt (Hl x hx)⟩
            · rintro ⟨hmem, hne⟩
              rcases (mem_node_iff _ _ _ _).mp hmem with rfl | hx | hx
              · exact absurd rfl hne
              · exact hx
              · exact absurd hx (mem_nil_false x)
          | node rl rd rr =>
            rw [recursiveRemove_two_children ll ld lr v rl rd rr v h1 h2]
            have htmpmem : mem (findMinData rl rd rr) (Tree.node rl rd rr) = true :=
              findMinData_mem rl rd rr
            have hvtmp : v < findMinData rl rd rr := Hr _ htmpmem
            have ihR := ihr hbr (findMinData rl rd rr) x
            constructor
            · intro hmem
              rcases (mem_node_iff _ _ _ _).mp hmem with rfl | hx | hx
              · exact ⟨(mem_node_iff _ _ _ _).mpr (Or.inr (Or.inr htmpmem)),
                  ne_of_gt hvtmp⟩
              · exact ⟨(mem_node_iff _ _ _ _).mpr (Or.inr (Or.inl hx)),
                  ne_of_lt (Hl x hx)⟩
              · obtain ⟨hxR, _⟩ := ihR.mp hx
                exact ⟨(mem_node_iff _ _ _ _).mpr (Or.inr (Or.inr hxR)),
                  ne_of_gt (Hr x hxR)⟩
            · rintro ⟨hmem, hne⟩
              rcases (mem_node_iff _ _ _ _).mp hmem with rfl | hx | hx
              · exact absurd rfl hne
              · exact (mem_node_iff _ _ _ _).mpr (Or.inr (Or.inl hx))
              · by_cases hxt : x = findMinData rl rd rr
                · exact (mem_node_iff _ _ _ _).mpr (Or.inl hxt)
                · exact (mem_node_iff _ _ _ _).mpr
                    (Or.inr (Or.inr (ihR.mpr ⟨hx, hxt⟩)))

theorem mem_of_recursiveContains :
    ∀ (t : Tree α) (v : α), recursiveContains t v = true → mem v t = true := by
  intro t
  induction t with
  | nil =>
    intro v h
    exact absurd h (by simp [recursiveContains])
  | node l d r ihl ihr =>
    intro v h
    rw [recursiveContains] at h
    by_cases h1 : v < d
    · rw [if_pos h1] at h
      exact (mem_node_iff _ _ _ _).mpr (Or.inr (Or.inl (ihl v h)))
    · rw [if_neg h1] at h
      by_cases h2 : v > d
      · rw [if_pos h2] at h
        exact (mem_node_iff _ _ _ _).mpr (Or.inr (Or.inr (ihr v h)))
      · exact (mem_node_iff _ _ _ _).mpr
          (Or.inl (le_antisymm (not_lt.mp h2) (not_lt.mp h1)))

end BST

namespace BST

/-- C4: for every tree state whose root satisfies the binary-search-tree
invariant and every value `v` with `contains(v)` true, `remove(v)` returns
true, decrements `size()` by exactly one, and afterwards `contains(v)` is
false. -/
theorem remove_present_spec {α : Type} [LinearOrder α]
    (t : BinarySearchTree α) (v : α)
    (hbst : isBSTb t._root = true) (hc : contains t v = true) :
    (remove t v).1 = true
    ∧ size (remove t v).2 = size t - 1
    ∧ contains (remove t v).2 v = false := by
  have hrem : remove t v
      = (true, { _nodeCount := t._nodeCount - 1,
                 _root := recursiveRemove t._root v }) := by
    simp [remove, hc]
  refine ⟨by rw [hrem], by rw [hrem]; rfl, ?_⟩
  rw [hrem]
  show recursiveContains (recursiveRemove t._root v) v = false
  cases hq : recursiveContains (recursiveRemove t._root v) v
  · rfl
  · have hmem := mem_of_recursiveContains _ v hq
    have hcontra := (mem_recursiveRemove t._root hbst v v).mp hmem
    exact absurd rfl hcontra.2

theorem remove_present_spec_w :
    (isBSTb ({ _nodeCount := 1,
               _root := Tree.node Tree.nil (5 : Int) Tree.nil }
             : BinarySearchTree Int)._root = true
      ∧ contains ({ _nodeCount := 1,
                    _root := Tree.node Tree.nil (5 : Int) Tree.nil }
                  : BinarySearchTree Int) 5 = true)
    ∧ ((remove ({ _nodeCount := 1,
                  _root := Tree.node Tree.nil (5 : Int) Tree.nil }
                : BinarySearchTree Int) 5).1 = true
       ∧ size (remove ({ _nodeCount := 1,
                         _root := Tree.node Tree.nil (5 : Int) Tree.nil }
                       : BinarySearchTree Int) 5).2
           = size ({ _nodeCount := 1,
                     _root := Tree.node Tree.nil (5 : Int) Tree.nil }
                   : BinarySearchTree Int) - 1
       ∧ contains (remove ({ _nodeCount := 1,
                             _root := Tree.node Tree.nil (5 : Int) Tree.nil }
                           : BinarySearchTree Int) 5).2 5 = false) :=
  ⟨⟨by decide, by decide⟩,
   remove_present_spec
     { _nodeCount := 1, _root := Tree.node Tree.nil (5 : Int) Tree.nil } 5
     (by decide) (by decide)⟩

/-- C1: evaluation at the failing input: from a new tree, `add(0)` (a value
not contained) returns true and increments `_nodeCount`, but the root stays
null and zero nodes are reachable, so the new node is never linked into the
tree (the claim says it becomes reachable from the root). -/
theorem add_new_value_discards_node :
    (add (newTree : BinarySearchTree Int) 0).1 = true
    ∧ size (add (newTree : BinarySearchTree Int) 0).2 = 1
    ∧ (add (newTree : BinarySearchTree Int) 0).2._root = Tree.nil
    ∧ countNodes (add (newTree : BinarySearchTree Int) 0).2._root = 0 := by
  decide

/-- C2: evaluation at the failing input: adding the distinct values `1, 2`
to a new tree makes `size()` report 2, yet `contains` is false for both
inserted values (the claim says it is true for every inserted value). -/
theorem contains_false_after_distinct_adds :
    size (addAll (newTree : BinarySearchTree Int) [1, 2]) = 2
    ∧ contains (addAll (newTree : BinarySearchTree Int) [1, 2]) 1 = false
    ∧ contains (addAll (newTree : BinarySearchTree Int) [1, 2]) 2 = false := by
  decide

/-- C3: evaluation at the failing input: after `add(1)` from a new tree,
`_nodeCount` is 1 while zero nodes are reachable from the (absent) root,
refuting both `nodeCount` = reachable-node-count and
`nodeCount == 0 ⇔ root absent`. -/
theorem nodeCount_root_mismatch :
    size (add (newTree : BinarySearchTree Int) 1).2 = 1
    ∧ (add (newTree : BinarySearchTree Int) 1).2._root = Tree.nil
    ∧ countNodes (add (newTree : BinarySearchTree Int) 1).2._root = 0 := by
  decide

/-- C7: evaluation at the failing input: building a tree from the set `{1}`
and then removing `1` leaves `size() = 1` and `isEmpty() = false` (the claim
says the round trip ends empty: the `add` never links a node, so the `remove`
finds nothing and never decrements). -/
theorem round_trip_not_empty :
    isEmpty (removeAll (addAll (newTree : BinarySearchTree Int) [1]) [1]) = false
    ∧ size (removeAll (addAll (newTree : BinarySearchTree Int) [1]) [1]) = 1 := by
  decide

/-- C8: evaluation at the failing input: `height()` of a new tree is 0 as
claimed, but after inserting one value (and after inserting `1, 2, 3` in
strictly increasing order) the height is still 0, not 1 (resp. 3), because
no node is ever linked. -/
theorem height_zero_after_adds :
    height (newTree : BinarySearchTree Int) = 0
    ∧ size (addAll (newTree : BinarySearchTree Int) [1]) = 1
    ∧ height (addAll (newTree : BinarySearchTree Int) [1]) = 0
    ∧ size (addAll (newTree : BinarySearchTree Int) [1, 2, 3]) = 3
    ∧ height (addAll (newTree : BinarySearchTree Int) [1, 2, 3]) = 0 := by
  decide

/-- C9: evaluation at the failing input: after inserting `5, 3, 8, 1, 4, 7, 9`
from a new tree, `size()` is 7 as claimed, but `height()` is 0 (not 3) and
`contains(4)` is false (not true); `remove(8)` then returns false and leaves
`size()` at 7 (not 6), and `contains(9)` stays false (not true). -/
theorem scenario_insert_seven_remove_eight :
    size (addAll (newTree : BinarySearchTree Int) [5, 3, 8, 1, 4, 7, 9]) = 7
    ∧ height (addAll (newTree : BinarySearchTree Int) [5, 3, 8, 1, 4, 7, 9]) = 0
    ∧ contains (addAll (newTree : BinarySearchTree Int) [5, 3, 8, 1, 4, 7, 9]) 4
        = false
    ∧ contains (addAll (newTree : BinarySearchTree Int) [5, 3, 8, 1, 4, 7, 9]) 6
        = false
    ∧ (remove (addAll (newTree : BinarySearchTree Int) [5, 3, 8, 1, 4, 7, 9]) 8).1
        = false
    ∧ size (remove (addAll (newTree : BinarySearchTree Int) [5, 3, 8, 1, 4, 7, 9]) 8).2
        = 7
    ∧ contains
        (remove (addAll (newTree : BinarySearchTree Int) [5, 3, 8, 1, 4, 7, 9]) 8).2
        9 = false := by
  decide

end BST
